import Mathlib

/-!
Verification development for the household behavioral-anomaly detection
pipeline (`simulation.py`).  The Python functions are shallowly embedded as
executable Lean definitions: pandas Series become Lists, timestamps become
natural-number minute counters, real-valued readings become rationals, and
the imperative single-pass loops become structural recursions carrying the
loop state explicitly.
-/

namespace Config

/-- `Config.QUIET_START` (inclusive). -/
def QUIET_START : Nat := 22
/-- `Config.QUIET_END` (exclusive). -/
def QUIET_END : Nat := 6
/-- `Config.WINDOW_MIN`. -/
def WINDOW_MIN : Nat := 15
/-- `Config.HOP_MIN`. -/
def HOP_MIN : Nat := 5
/-- `Config.OVEN_W_THR` (watts). -/
def OVEN_W_THR : ℚ := 300
/-- `Config.OVEN_MIN_THR` (minutes). -/
def OVEN_MIN_THR : Nat := 30
/-- `Config.OVEN_OFF_HYST` (watts). -/
def OVEN_OFF_HYST : ℚ := 200
/-- `Config.OVEN_OFF_MIN` (samples). -/
def OVEN_OFF_MIN : Nat := 3
/-- `Config.ANOM_PCTL_PER_HOUR` (97.5, as the rational 195/2). -/
def ANOM_PCTL_PER_HOUR : ℚ := 195 / 2
/-- `Config.MIN_ALERT_GAP_MIN` (minutes). -/
def MIN_ALERT_GAP_MIN : ℚ := 30
/-- `Config.DEBOUNCE_STABLE_REQ`. -/
def DEBOUNCE_STABLE_REQ : Nat := 2
/-- `Config.QUIET_THRESHOLD_FACTOR` (0.90, as the rational 9/10). -/
def QUIET_THRESHOLD_FACTOR : ℚ := 9 / 10
/-- `Config.QUIET_LOW_MOTION_MAX`. -/
def QUIET_LOW_MOTION_MAX : ℚ := 30
/-- `Config.HIGH_MOTION_THRESHOLD`. -/
def HIGH_MOTION_THRESHOLD : ℚ := 60
/-- `Config.PRESSURE_ONLY_MOTION_MIN`. -/
def PRESSURE_ONLY_MOTION_MIN : ℚ := 12
/-- `Config.QUIET_TRANSITIONS_ANOMALY`. -/
def QUIET_TRANSITIONS_ANOMALY : Nat := 3
/-- `Config.SLEEP_MIN_PRESS`. -/
def SLEEP_MIN_PRESS : Nat := 1
/-- `Config.SLEEP_MIN_SESSION_MIN`. -/
def SLEEP_MIN_SESSION_MIN : Nat := 60
/-- `Config.SLEEP_TURNOVER_THRESHOLD`. -/
def SLEEP_TURNOVER_THRESHOLD : Nat := 5
/-- `Config.SLEEP_IMMOBILITY_GAP_MIN` (4 hours). -/
def SLEEP_IMMOBILITY_GAP_MIN : Nat := 240
/-- `Config.REQUIRED_COLUMNS`. -/
def REQUIRED_COLUMNS : List String :=
  ["hall_motion", "kitchen_motion", "bedroom_motion", "oven_power_w"]
/-- `Config.ROOMS`. -/
def ROOMS : List String := ["hall", "kitchen", "bedroom"]

end Config

/-- `is_quiet_hour(hour)`: 1 when `hour >= QUIET_START or hour < QUIET_END`. -/
def is_quiet_hour (hour : Nat) : Nat :=
  if Config.QUIET_START ≤ hour ∨ hour < Config.QUIET_END then 1 else 0

/-! ### Signal debouncer (`debounce_series`)

The pandas Series of 0/1/NaN values is embedded as `List (Option Nat)`
(`none` = NaN).  The loop state `(on_count, off_count, state)` is threaded
through a structural recursion; the output list collects `state` after each
sample, exactly as `out.append(state)` does.  The Python local `state`
updated before the append is written inline as the repeated `if` term. -/

/-- One-pass debounce loop of `debounce_series`, carrying the mutable loop
variables `on_count`, `off_count`, `state` explicitly. -/
def debounceAux (stableReq onc offc st : Nat) : List (Option Nat) → List Nat
  | [] => []
  | none :: rest => st :: debounceAux stableReq onc offc st rest
  | some x :: rest =>
    if x = 1 then
      (if st = 0 ∧ stableReq ≤ onc + 1 then 1 else st) ::
        debounceAux stableReq (onc + 1) 0
          (if st = 0 ∧ stableReq ≤ onc + 1 then 1 else st) rest
    else
      (if st = 1 ∧ stableReq ≤ offc + 1 then 0 else st) ::
        debounceAux stableReq 0 (offc + 1)
          (if st = 1 ∧ stableReq ≤ offc + 1 then 0 else st) rest

/-- `debounce_series(s, stable_req)`: initial counts and state are zero. -/
def debounce_series (s : List (Option Nat)) (stableReq : Nat) : List Nat :=
  debounceAux stableReq 0 0 0 s

/-! ### Candidate filter (`is_candidate_anomaly`) -/

/-- One row of the feature frame `X`, restricted to the fields read by
`is_candidate_anomaly` (the row's `ts.hour` is computed but never used by
the Python function, so it is omitted). -/
structure FRow where
  is_quiet : Nat
  unique_rooms : Nat
  room_transitions : Nat
  oven_on_frac : ℚ
  motion_sum : ℚ
  anomaly_score : ℚ
  threshold : ℚ
deriving Repr, DecidableEq

/-- `adj_thr = row["threshold"] * (QUIET_THRESHOLD_FACTOR if row["is_quiet"] == 1 else 1.0)`. -/
def adjustedThreshold (r : FRow) : ℚ :=
  r.threshold * (if r.is_quiet = 1 then Config.QUIET_THRESHOLD_FACTOR else 1)

/-- The pressure-only quiet-hour suppression test of `is_candidate_anomaly`. -/
def suppressionCondition (r : FRow) : Prop :=
  r.is_quiet = 1 ∧ r.unique_rooms = 1 ∧ r.room_transitions = 0 ∧
    r.oven_on_frac = 0 ∧ r.motion_sum ≤ Config.QUIET_LOW_MOTION_MAX

instance (r : FRow) : Decidable (suppressionCondition r) :=
  inferInstanceAs (Decidable (r.is_quiet = 1 ∧ r.unique_rooms = 1 ∧
    r.room_transitions = 0 ∧ r.oven_on_frac = 0 ∧
    r.motion_sum ≤ Config.QUIET_LOW_MOTION_MAX))

/-- The `hard_activity` disjunction of `is_candidate_anomaly`. -/
def hardActivity (r : FRow) : Prop :=
  (r.is_quiet = 1 ∧ Config.QUIET_TRANSITIONS_ANOMALY ≤ r.room_transitions) ∨
    Config.HIGH_MOTION_THRESHOLD < r.motion_sum ∨
    ((r.unique_rooms = 1 ∧ r.oven_on_frac = 0) ∧
      Config.PRESSURE_ONLY_MOTION_MIN ≤ r.motion_sum)

instance (r : FRow) : Decidable (hardActivity r) :=
  inferInstanceAs (Decidable (
    (r.is_quiet = 1 ∧ Config.QUIET_TRANSITIONS_ANOMALY ≤ r.room_transitions) ∨
    Config.HIGH_MOTION_THRESHOLD < r.motion_sum ∨
    ((r.unique_rooms = 1 ∧ r.oven_on_frac = 0) ∧
      Config.PRESSURE_ONLY_MOTION_MIN ≤ r.motion_sum)))

/-- `is_candidate_anomaly(row)`: suppression first, then
`score >= adj_thr and hard_activity`. -/
def is_candidate_anomaly (r : FRow) : Bool :=
  if suppressionCondition r then false
  else decide (adjustedThreshold r ≤ r.anomaly_score ∧ hardActivity r)

/-! ### Appliance-left-on guard (`oven_left_on_guard`)

Power readings become a `List ℚ`; the pandas index becomes a minute counter
`ts` starting at 0.  `int(w)` in the alert features becomes `⌊w⌋`. -/

/-- An alert dictionary produced by `oven_left_on_guard`, with the fields
that vary (`type`, `label`, `score`, `explanations` are constants in the
source). -/
structure OvenAlert where
  ts_start : Option Nat
  ts_end : Nat
  power_w : ℤ
  minutes_on : Nat
deriving Repr, DecidableEq

/-- The loop state of `oven_left_on_guard`: `streak`, `off_streak`,
`on_start`. -/
structure OvenState where
  streak : Nat
  offStreak : Nat
  onStart : Option Nat
deriving Repr, DecidableEq

/-- One iteration of the `oven_left_on_guard` loop body: returns the updated
state and the alerts appended during this iteration. -/
def ovenStep (s : OvenState) (ts : Nat) (w : ℚ) : OvenState × List OvenAlert :=
  if Config.OVEN_W_THR < w then
    let onStart' := if s.streak = 0 then some ts else s.onStart
    let streak' := s.streak + 1
    (⟨streak', 0, onStart'⟩,
      if streak' = Config.OVEN_MIN_THR then
        [⟨onStart', ts, ⌊w⌋, streak'⟩] else [])
  else
    let offStreak' := if w < Config.OVEN_OFF_HYST then s.offStreak + 1 else s.offStreak
    if Config.OVEN_OFF_MIN ≤ offStreak' then (⟨0, 0, none⟩, [])
    else (⟨s.streak, offStreak', s.onStart⟩, [])

/-- The `oven_left_on_guard` loop over the remaining readings. -/
def ovenAux (ts : Nat) (s : OvenState) : List ℚ → List OvenAlert
  | [] => []
  | w :: rest => (ovenStep s ts w).2 ++ ovenAux (ts + 1) (ovenStep s ts w).1 rest

/-- `oven_left_on_guard(p_series)`: initial streaks zero, `on_start = None`. -/
def oven_left_on_guard (l : List ℚ) : List OvenAlert :=
  ovenAux 0 ⟨0, 0, none⟩ l

/-- Number of samples strictly above the on-threshold. -/
def ovenOnCount (l : List ℚ) : Nat :=
  l.countP (fun w => decide (Config.OVEN_W_THR < w))

/-- A power series oscillating strictly between above-on and below-off
levels every other minute: no value sustained for more than one sample. -/
def oscillatingPower : List ℚ :=
  (List.range 60).map fun i => if i % 2 = 0 then (400 : ℚ) else 150

/-! ### Incident grouping (`group_anomaly_incidents`)

A candidate row is reduced to the fields the grouping reads: its window
timestamp `ts` (in minutes, rational since the source divides
`total_seconds()` by 60.0) and its `anomaly_score` (read downstream for
peak labeling). -/

/-- A candidate anomaly window row, as consumed by
`group_anomaly_incidents`. -/
structure ARow where
  ts : ℚ
  anomaly_score : ℚ
deriving Repr, DecidableEq

/-- The grouping loop of `group_anomaly_incidents`: `cur` is the incident
being accumulated (`cur[-1]` is its last row); a gap within
`MIN_ALERT_GAP_MIN` extends `cur`, a larger gap flushes it. -/
def groupGo (cur : List ARow) : List ARow → List (List ARow)
  | [] => if cur.isEmpty then [] else [cur]
  | r :: rest =>
    match cur.getLast? with
    | none => groupGo [r] rest
    | some lastR =>
      if r.ts - lastR.ts ≤ Config.MIN_ALERT_GAP_MIN then
        groupGo (cur ++ [r]) rest
      else cur :: groupGo [r] rest

/-- `group_anomaly_incidents(df_anom)`, restricted to the incident
partition it builds (the subsequent per-incident alert assembly reads the
peak row; the partition is what the grouping claims concern). -/
def group_anomaly_incidents (l : List ARow) : List (List ARow) :=
  groupGo [] l

/-! ### Adaptive per-hour thresholds

`X.groupby(hour)["anomaly_score"].quantile(q)` and `np.quantile(..., q)`
both use the same linear-interpolation percentile; a scored window is
reduced to its `(hour, anomaly_score)` pair. -/

/-- Insertion into an ascending-sorted list. -/
def insertSorted (x : ℚ) : List ℚ → List ℚ
  | [] => [x]
  | y :: ys => if x ≤ y then x :: y :: ys else y :: insertSorted x ys

/-- Ascending sort of the values, as performed inside the percentile
computations of pandas `quantile` and `np.quantile`. -/
def sortQ (l : List ℚ) : List ℚ := l.foldr insertSorted []

/-- Linear-interpolation percentile (the default method of both
`Series.quantile` and `np.quantile`): for sorted values and fraction `q`,
the value at fractional rank `q·(n-1)`, interpolated between the two
neighbouring order statistics. -/
def quantileLinear (q : ℚ) (l : List ℚ) : ℚ :=
  let s := sortQ l
  let n := s.length
  let pos := q * ((n : ℚ) - 1)
  let lo := (⌊pos⌋).toNat
  let frac := pos - (lo : ℚ)
  s.getD lo 0 + frac * (s.getD (min (lo + 1) (n - 1)) 0 - s.getD lo 0)

/-- The anomaly scores of the windows sharing hour `h`
(`X.groupby(X["ts"].dt.hour)` group for key `h`). -/
def scoresOfHour (rows : List (Nat × ℚ)) (h : Nat) : List ℚ :=
  (rows.filter (fun p => p.1 == h)).map (fun p => p.2)

/-- `global_thr = np.quantile(X["anomaly_score"], ANOM_PCTL_PER_HOUR/100)`. -/
def globalThreshold (rows : List (Nat × ℚ)) : ℚ :=
  quantileLinear (Config.ANOM_PCTL_PER_HOUR / 100) (rows.map (fun p => p.2))

/-- The per-window threshold `thr_by_hour.get(h, global_thr)`: hours with
at least one window map to their own percentile (the groupby dictionary is
built from exactly these rows), absent hours fall back to the global
percentile. -/
def thresholdForHour (rows : List (Nat × ℚ)) (h : Nat) : ℚ :=
  if scoresOfHour rows h = [] then globalThreshold rows
  else quantileLinear (Config.ANOM_PCTL_PER_HOUR / 100) (scoresOfHour rows h)

/-! ### Windowing (step 3 of `run_pipeline_from_df`) -/

/-- Python `range(a, b, h)` for a positive step `h`. -/
def pyRange (a b h : Nat) : List Nat :=
  List.range' a ((b - a + h - 1) / h) h

/-- The window slices built by `run_pipeline_from_df`: for each
`end_idx in range(WINDOW_MIN - 1, len(df_local), HOP_MIN)` take
`df_local.iloc[end_idx - (WINDOW_MIN - 1) : end_idx + 1]` and keep it only
if it has full length (`if len(win) == Config.WINDOW_MIN`). -/
def windowSlices {α : Type} (l : List α) (W H : Nat) : List (List α) :=
  ((pyRange (W - 1) l.length H).map
    (fun e => (l.drop (e + 1 - W)).take W)).filter (fun w => w.length == W)

/-! ### Sleep sessions (`sleep_sessions_from_bed`)

A row of `df_minutes` is reduced to `(timestamp, bedroom_motion)`, the
timestamp a natural number of minutes (`t.hour` becomes `t / 60 % 24`).
The pandas `ts_end = e - 1 second` becomes the rational `e - 1/60`. -/

/-- The per-row session condition `pressed == 1 and is_quiet_hour(t.hour)`
(with `pressed = bedroom_motion >= SLEEP_MIN_PRESS`). -/
def sleepActive (t m : Nat) : Bool :=
  decide (Config.SLEEP_MIN_PRESS ≤ m) && decide (is_quiet_hour (t / 60 % 24) = 1)

/-- The session-building loop: `st` holds `s_start` while inside a session;
returns the closed sessions `(s_start, closing timestamp)` in order and the
still-open start, if any. -/
def sessionsAux (st : Option Nat) : List (Nat × Nat) → List (Nat × Nat) × Option Nat
  | [] => ([], st)
  | (t, m) :: rest =>
    if sleepActive t m then
      match st with
      | none => sessionsAux (some t) rest
      | some s => sessionsAux (some s) rest
    else
      match st with
      | none => sessionsAux none rest
      | some s =>
        let r := sessionsAux none rest
        ((s, t) :: r.1, r.2)

/-- The sessions of `sleep_sessions_from_bed`: the loop's closed sessions,
with a still-open session closed at `pressed.index[-1] + 1 minute`.  (The
arm pairing an open session with an empty input is unreachable: an open
session requires at least one row.) -/
def sessionsOf (l : List (Nat × Nat)) : List (Nat × Nat) :=
  match sessionsAux none l, l.getLast? with
  | (ss, some s), some p => ss ++ [(s, p.1 + 1)]
  | (ss, some s), none => ss ++ [(s, s + 1)]
  | (ss, none), _ => ss

/-- `seg`: the rows of the input whose timestamp lies in
`date_range(s, e - 1 minute)` (i.e. `s ≤ t ≤ e - 1`). -/
def segmentOf (l : List (Nat × Nat)) (s e : Nat) : List (Nat × Nat) :=
  l.filter (fun p => decide (s ≤ p.1) && decide (p.1 < e))

/-- `turnover_minutes`: timestamps in the segment whose motion reaches the
turnover threshold. -/
def turnoverTimes (l : List (Nat × Nat)) (s e : Nat) : List Nat :=
  ((segmentOf l s e).filter
    (fun p => decide (Config.SLEEP_TURNOVER_THRESHOLD ≤ p.2))).map (fun p => p.1)

/-- Consecutive differences `times[i] - times[i-1]` (as Python ints). -/
def gapsOf : List Nat → List ℤ
  | a :: b :: rest => ((b : ℤ) - (a : ℤ)) :: gapsOf (b :: rest)
  | _ => []

/-- `max_gap`: running maximum of the consecutive gaps, starting from 0. -/
def maxGapOf (times : List Nat) : ℤ :=
  (gapsOf times).foldl max 0

/-- One alert dictionary of `sleep_sessions_from_bed`; `max_gap_min` is
`none` on the info alert (whose features are duration and turnovers) and
carries `max_gap` on the immobility guard alert. -/
structure SleepAlert where
  typ : String
  label : String
  ts_start : Nat
  ts_end : ℚ
  duration_min : Nat
  turnovers : Nat
  max_gap_min : Option ℤ
deriving Repr, DecidableEq

/-- The per-session body of the `for (s, e) in sessions` loop: discard
short sessions and empty segments, emit the `sleep_session` info alert,
then the `possible_immobility` guard alert when the maximal turnover gap
(with `s` and `e` as boundary markers) reaches the immobility threshold. -/
def sessionAlerts (l : List (Nat × Nat)) (se : Nat × Nat) : List SleepAlert :=
  let s := se.1
  let e := se.2
  let dur := e - s
  if dur < Config.SLEEP_MIN_SESSION_MIN then []
  else if segmentOf l s e = [] then []
  else
    let tms := turnoverTimes l s e
    let info : SleepAlert :=
      ⟨"info", "sleep_session", s, (e : ℚ) - 1/60, dur, tms.length, none⟩
    if 0 < Config.SLEEP_IMMOBILITY_GAP_MIN then
      let mg := maxGapOf (s :: (tms ++ [e]))
      if (Config.SLEEP_IMMOBILITY_GAP_MIN : ℤ) ≤ mg then
        [info, ⟨"guard", "possible_immobility", s, (e : ℚ) - 1/60, dur,
          tms.length, some mg⟩]
      else [info]
    else [info]

/-- The `alerts_local` accumulation over the session list. -/
def sleepAlertsAux (l : List (Nat × Nat)) : List (Nat × Nat) → List SleepAlert
  | [] => []
  | se :: rest => sessionAlerts l se ++ sleepAlertsAux l rest

/-- `sleep_sessions_from_bed(df_minutes)`. -/
def sleep_sessions_from_bed (l : List (Nat × Nat)) : List SleepAlert :=
  sleepAlertsAux l (sessionsOf l)

/-- A concrete night trace: a 10-minute pressure run (00:00-00:09), a break
at 00:10, then an uninterrupted 65-minute run (00:11-01:15), all during
quiet hours. -/
def sleepExample : List (Nat × Nat) :=
  (List.range 10).map (fun i => (i, 1)) ++ [(10, 0)] ++
    (List.range 65).map (fun i => (i + 11, 1))

/-- Executable check that row timestamps are strictly increasing. -/
def strictlySortedTs : List (Nat × Nat) → Bool
  | [] => true
  | [_] => true
  | p :: q :: rest => decide (p.1 < q.1) && strictlySortedTs (q :: rest)

/-! ### Validation and pipeline control flow (`validate_input_dataframe`,
`run_pipeline_from_df`)

A DataFrame is abstracted to what the validation and control flow read:
whether its index is a `DatetimeIndex`, its column names, and its index
timestamps (natural-number minutes). -/

/-- The shape of `df_input` as read by validation and windowing. -/
structure PDF where
  isDatetimeIndex : Bool
  columns : List String
  index : List Nat
deriving Repr, DecidableEq

/-- The required columns missing from the frame
(`set(REQUIRED_COLUMNS) - set(df.columns)`). -/
def missingColumns (df : PDF) : List String :=
  Config.REQUIRED_COLUMNS.filter (fun c => !(df.columns.contains c))

/-- `validate_input_dataframe(df)`: raises (models as `Except.error`) on a
non-datetime index, missing required columns, or fewer rows than one
window, in that order; the frequency check only logs. -/
def validate_input_dataframe (df : PDF) : Except String Unit :=
  if df.isDatetimeIndex = false then
    Except.error "DataFrame must have a DatetimeIndex"
  else if missingColumns df ≠ [] then
    Except.error "Missing required columns"
  else if df.index.length < Config.WINDOW_MIN then
    Except.error "DataFrame must have at least WINDOW_MIN rows for windowing"
  else Except.ok ()

/-- The end timestamps `df_local.index[end_idx]` of the emitted windows. -/
def windowEndTimes (idx : List Nat) : List Nat :=
  (windowSlices idx Config.WINDOW_MIN Config.HOP_MIN).map
    (fun w => w.getLast?.getD 0)

/-- `train_idx`: window positions whose end-hour is before noon, replaced
by the first `min(len(windows), 50)` positions when fewer than 10. -/
def trainIdx (ws : List Nat) : List Nat :=
  let t := (List.range ws.length).filter
    (fun i => decide ((ws.getD i 0) / 60 % 24 < 12))
  if t.length < 10 then List.range (min ws.length 50) else t

/-- The control-flow outcome of `run_pipeline_from_df`:
`invalid` models the raised `ValueError`, `emptyNoWindows` models
`return []` after the "No complete windows found" warning, and `ran`
records the window end-times and training positions the model fit uses. -/
inductive PipelineOutcome
  | invalid (msg : String)
  | emptyNoWindows
  | ran (windows : List Nat) (train : List Nat)
deriving Repr, DecidableEq

/-- The pipeline body after a successful validation. -/
def pipelineAfterValidation (idx : List Nat) : PipelineOutcome :=
  let ws := windowEndTimes idx
  if ws.length = 0 then PipelineOutcome.emptyNoWindows
  else PipelineOutcome.ran ws (trainIdx ws)

/-- `run_pipeline_from_df` control flow: validation runs first, before any
computation. -/
def run_pipeline_control (df : PDF) : PipelineOutcome :=
  match validate_input_dataframe df with
  | Except.error e => PipelineOutcome.invalid e
  | Except.ok _ => pipelineAfterValidation df.index

/-! ### Frame effect of `run_pipeline_from_df` (column additions)

The derived columns are written to `df_local = df_input.copy()`.  To make
the aliasing question expressible, the two DataFrame objects live in an
explicit heap: cell 0 is the caller's `df_input`, cell 1 is `df_local`;
`copy()` allocates a fresh cell, and every column assignment is a store to
a cell. -/

/-- A column's values: float columns, integer indicator columns, or the
nullable-string `current_room` column. -/
inductive ColValue
  | nums (vals : List ℚ)
  | nats (vals : List Nat)
  | rooms (vals : List (Option String))
deriving Repr, DecidableEq

/-- A DataFrame as an ordered association of column names to values. -/
abbrev DFrame : Type := List (String × ColValue)

/-- Column membership (`name in df.columns`). -/
def dfHasCol (df : DFrame) (name : String) : Bool :=
  df.any (fun p => p.1 == name)

/-- Column assignment `df[name] = v`: overwrite in place or append. -/
def dfSetCol (df : DFrame) (name : String) (v : ColValue) : DFrame :=
  if dfHasCol df name then
    df.map (fun p => if p.1 == name then (name, v) else p)
  else df ++ [(name, v)]

/-- Read a float column (empty if absent or of another kind). -/
def dfGetNums (df : DFrame) (name : String) : List ℚ :=
  match df.find? (fun p => p.1 == name) with
  | some (_, ColValue.nums vs) => vs
  | _ => []

/-- Read an integer column (empty if absent or of another kind). -/
def dfGetNats (df : DFrame) (name : String) : List Nat :=
  match df.find? (fun p => p.1 == name) with
  | some (_, ColValue.nats vs) => vs
  | _ => []

/-- `infer_current_room(row, prev_room)`: the active rooms in canonical
order; keep the previous room if still active, else the first active. -/
def infer_current_room (present : String → Nat) (prev : Option String) :
    Option String :=
  let active := Config.ROOMS.filter (fun r => present r == 1)
  if active = [] then none
  else match prev with
    | some pr => if pr ∈ active then some pr else active.head?
    | none => active.head?

/-- The row loop building `current_rooms`, carrying `prev_r`. -/
def currentRoomsAux (present : String → Nat → Nat) :
    Nat → Nat → Option String → List (Option String)
  | 0, _, _ => []
  | k + 1, i, prev =>
    let cr := infer_current_room (fun r => present r i) prev
    cr :: currentRoomsAux present k (i + 1) cr

/-- The heap of DataFrame objects; cell indices are object identities. -/
abbrev Heap : Type := List DFrame

/-- Dereference a heap cell. -/
def heapGet (h : Heap) (r : Nat) : DFrame := h.getD r []

/-- Overwrite a heap cell. -/
def heapSet (h : Heap) (r : Nat) (df : DFrame) : Heap := h.set r df

/-- One iteration of the `*_present_raw` loop: add the raw presence
indicator column `(motion > 0).astype(int)` to `df_local` (cell 1) when it
is not already there. -/
def presenceRawStep (h : Heap) (room : String) : Heap :=
  if dfHasCol (heapGet h 1) (room ++ "_present_raw") then h
  else heapSet h 1 (dfSetCol (heapGet h 1) (room ++ "_present_raw")
    (ColValue.nats ((dfGetNums (heapGet h 1) (room ++ "_motion")).map
      (fun x => if 0 < x then 1 else 0))))

/-- One iteration of the `*_present` loop: debounce the raw column into
`df_local` (cell 1). -/
def presenceStep (h : Heap) (room : String) : Heap :=
  heapSet h 1 (dfSetCol (heapGet h 1) (room ++ "_present")
    (ColValue.nats (debounce_series
      ((dfGetNats (heapGet h 1) (room ++ "_present_raw")).map some)
      Config.DEBOUNCE_STABLE_REQ)))

/-- Steps 0-2 of `run_pipeline_from_df` with explicit object store:
`df_local = df_input.copy()` (allocating cell 1), then the per-room
`*_present_raw` columns (only when absent), the debounced `*_present`
columns, and the `current_room` trace column — every write targeting
cell 1. -/
def runPresenceSteps (dfInput : DFrame) : Heap :=
  let h1 : Heap := [dfInput] ++ [heapGet [dfInput] 0]
  let h2 := Config.ROOMS.foldl presenceRawStep h1
  let h3 := Config.ROOMS.foldl presenceStep h2
  heapSet h3 1 (dfSetCol (heapGet h3 1) "current_room"
    (ColValue.rooms (currentRoomsAux
      (fun r i => (dfGetNats (heapGet h3 1) (r ++ "_present")).getD i 0)
      (dfGetNums (heapGet h3 1) "hall_motion").length 0 none)))

/-! ### Theorems for C1 and C2 -/

/-- C1: a quiet-hours window touching one room with no transitions, no
appliance-on fraction and motion at or below the quiet low-motion ceiling is
never a candidate, whatever its anomaly score and threshold; and any
candidate window has `anomaly_score ≥` the quiet-adjusted threshold and
satisfies at least one activity-shape acceptance condition. -/
theorem candidate_suppression_and_gating (r : FRow) :
    (r.is_quiet = 1 → r.unique_rooms = 1 → r.room_transitions = 0 →
      r.oven_on_frac = 0 → r.motion_sum ≤ Config.QUIET_LOW_MOTION_MAX →
      is_candidate_anomaly r = false) ∧
    (is_candidate_anomaly r = true →
      adjustedThreshold r ≤ r.anomaly_score ∧ hardActivity r) := by
  constructor
  · intro h1 h2 h3 h4 h5
    unfold is_candidate_anomaly
    rw [if_pos ⟨h1, h2, h3, h4, h5⟩]
  · intro hc
    unfold is_candidate_anomaly at hc
    by_cases hs : suppressionCondition r
    · rw [if_pos hs] at hc; exact absurd hc (by simp)
    · rw [if_neg hs] at hc; exact of_decide_eq_true hc

/-- Witness for C1: a concrete suppressed quiet window (huge score, zero
threshold) is rejected, and a concrete accepted window passes both gates. -/
theorem candidate_suppression_and_gating_witness :
    is_candidate_anomaly ⟨1, 1, 0, 0, 10, 1000, 0⟩ = false ∧
      (adjustedThreshold ⟨0, 2, 0, 0, 100, 5, 1⟩ ≤ (5 : ℚ) ∧
        hardActivity ⟨0, 2, 0, 0, 100, 5, 1⟩) :=
  ⟨(candidate_suppression_and_gating ⟨1, 1, 0, 0, 10, 1000, 0⟩).1
      rfl rfl rfl rfl (by norm_num [Config.QUIET_LOW_MOTION_MAX]),
    (candidate_suppression_and_gating ⟨0, 2, 0, 0, 100, 5, 1⟩).2 (by
      norm_num [is_candidate_anomaly, suppressionCondition, adjustedThreshold,
        hardActivity, Config.QUIET_LOW_MOTION_MAX, Config.HIGH_MOTION_THRESHOLD,
        Config.PRESSURE_ONLY_MOTION_MIN, Config.QUIET_TRANSITIONS_ANOMALY])⟩

/-- C2 counterexample: with the default stability count 2, debouncing the
series `[1,1,0,0]` twice does not equal debouncing it once
(`[0,0,1,1]` versus `[0,1,1,0]`): the committed rising edge is delayed by a
further `S - 1` samples on every application. -/
theorem debounce_not_idempotent :
    debounce_series ((debounce_series [some 1, some 1, some 0, some 0]
        Config.DEBOUNCE_STABLE_REQ).map some) Config.DEBOUNCE_STABLE_REQ ≠
      debounce_series [some 1, some 1, some 0, some 0]
        Config.DEBOUNCE_STABLE_REQ := by
  decide

/-- Every output sample of the debouncer is 0 or 1 (given a 0-or-1 running
state). -/
theorem debounceAux_binary (stableReq : Nat) :
    ∀ (l : List (Option Nat)) (onc offc st : Nat), st = 0 ∨ st = 1 →
      ∀ x ∈ debounceAux stableReq onc offc st l, x = 0 ∨ x = 1 := by
  intro l
  induction l with
  | nil => intro onc offc st hst x hx; simp [debounceAux] at hx
  | cons v rest ih =>
    intro onc offc st hst x hx
    rcases v with _ | n
    · simp only [debounceAux, List.mem_cons] at hx
      rcases hx with h | h
      · exact h ▸ hst
      · exact ih onc offc st hst x h
    · simp only [debounceAux] at hx
      by_cases hn : n = 1
      · rw [if_pos hn] at hx
        have hst2 : (if st = 0 ∧ stableReq ≤ onc + 1 then 1 else st) = 0 ∨
            (if st = 0 ∧ stableReq ≤ onc + 1 then 1 else st) = 1 := by
          split
          · right; rfl
          · exact hst
        rcases List.mem_cons.mp hx with h | h
        · exact h ▸ hst2
        · exact ih _ _ _ hst2 x h
      · rw [if_neg hn] at hx
        have hst2 : (if st = 1 ∧ stableReq ≤ offc + 1 then 0 else st) = 0 ∨
            (if st = 1 ∧ stableReq ≤ offc + 1 then 0 else st) = 1 := by
          split
          · left; rfl
          · exact hst
        rcases List.mem_cons.mp hx with h | h
        · exact h ▸ hst2
        · exact ih _ _ _ hst2 x h

/-- With stability count 1 the debouncer maps every all-0/1 list to itself,
from any 0-or-1 starting state. -/
theorem debounceAux_one_fixed :
    ∀ (l : List Nat), (∀ x ∈ l, x = 0 ∨ x = 1) →
      ∀ (onc offc st : Nat), st = 0 ∨ st = 1 →
        debounceAux 1 onc offc st (l.map some) = l := by
  intro l
  induction l with
  | nil => intro _ onc offc st _; rfl
  | cons x rest ih =>
    intro hl onc offc st hst
    have hrest : ∀ y ∈ rest, y = 0 ∨ y = 1 :=
      fun y hy => hl y (List.mem_cons_of_mem x hy)
    rcases hl x (List.mem_cons_self x rest) with rfl | rfl
    · simp only [List.map_cons, debounceAux, if_neg (by decide : ¬(0 = 1))]
      have h0 : (if st = 1 ∧ 1 ≤ offc + 1 then 0 else st) = 0 := by
        rcases hst with rfl | rfl
        · rw [if_neg]; rintro ⟨h, _⟩; exact absurd h (by decide)
        · exact if_pos ⟨rfl, Nat.le_add_left 1 offc⟩
      rw [h0]
      exact congrArg (List.cons 0) (ih hrest 0 (offc + 1) 0 (Or.inl rfl))
    · simp only [List.map_cons, debounceAux, if_pos rfl]
      have h1 : (if st = 0 ∧ 1 ≤ onc + 1 then 1 else st) = 1 := by
        rcases hst with rfl | rfl
        · exact if_pos ⟨rfl, Nat.le_add_left 1 onc⟩
        · rw [if_neg]; rintro ⟨h, _⟩; exact absurd h (by decide)
      rw [h1]
      exact congrArg (List.cons 1) (ih hrest (onc + 1) 0 1 (Or.inr rfl))

/-- C2 amended: with stability count 1 the debouncer is idempotent — a
second application reproduces the first application's output (for the
default stability count 2 idempotence fails, see the counterexample). -/
theorem debounce_idempotent_of_stable_one (s : List (Option Nat)) :
    debounce_series ((debounce_series s 1).map some) 1 = debounce_series s 1 :=
  debounceAux_one_fixed (debounce_series s 1)
    (fun x hx => debounceAux_binary 1 s 0 0 0 (Or.inl rfl) x hx)
    0 0 0 (Or.inl rfl)

/-! ### Theorems for C4 and C10 (oven guard) -/

/-- If the running streak plus the number of remaining above-on samples
stays below `OVEN_MIN_THR`, the loop emits nothing. -/
theorem ovenAux_eq_nil_of_count_lt (l : List ℚ) :
    ∀ (ts : Nat) (s : OvenState),
      s.streak + ovenOnCount l < Config.OVEN_MIN_THR → ovenAux ts s l = [] := by
  induction l with
  | nil => intro ts s _; rfl
  | cons w rest ih =>
    intro ts s h
    by_cases hw : Config.OVEN_W_THR < w
    · have hcount : ovenOnCount (w :: rest) = ovenOnCount rest + 1 := by
        simp [ovenOnCount, List.countP_cons, hw]
      rw [hcount] at h
      show (ovenStep s ts w).2 ++ ovenAux (ts + 1) (ovenStep s ts w).1 rest = []
      simp only [ovenStep, if_pos hw]
      rw [if_neg (by omega : ¬ s.streak + 1 = Config.OVEN_MIN_THR),
        List.nil_append]
      exact ih (ts + 1) _ (by simpa using by omega)
    · have hcount : ovenOnCount (w :: rest) = ovenOnCount rest := by
        simp [ovenOnCount, List.countP_cons, hw]
      rw [hcount] at h
      show (ovenStep s ts w).2 ++ ovenAux (ts + 1) (ovenStep s ts w).1 rest = []
      simp only [ovenStep, if_neg hw]
      by_cases h3 : Config.OVEN_OFF_MIN ≤
          (if w < Config.OVEN_OFF_HYST then s.offStreak + 1 else s.offStreak)
      · rw [if_pos h3]
        simpa using ih (ts + 1) ⟨0, 0, none⟩ (by simpa using by omega)
      · rw [if_neg h3]
        simpa using ih (ts + 1) ⟨s.streak, _, s.onStart⟩ (by simpa using h)

/-- Once the streak is at or above `OVEN_MIN_THR`, an all-above-on suffix
emits nothing further (the `streak == OVEN_MIN_THR` test can never hit). -/
theorem ovenAux_eq_nil_of_ge (l : List ℚ) :
    ∀ (ts : Nat) (s : OvenState), (∀ w ∈ l, Config.OVEN_W_THR < w) →
      Config.OVEN_MIN_THR ≤ s.streak → ovenAux ts s l = [] := by
  induction l with
  | nil => intro ts s _ _; rfl
  | cons w rest ih =>
    intro ts s hall hge
    have hw : Config.OVEN_W_THR < w := hall w (List.mem_cons_self w rest)
    show (ovenStep s ts w).2 ++ ovenAux (ts + 1) (ovenStep s ts w).1 rest = []
    simp only [ovenStep, if_pos hw]
    rw [if_neg (by unfold Config.OVEN_MIN_THR at *; omega :
        ¬ s.streak + 1 = Config.OVEN_MIN_THR), List.nil_append]
    exact ih (ts + 1) _ (fun v hv => hall v (List.mem_cons_of_mem w hv))
      (by simpa using by omega)

/-- Every alert carries `minutes_on = OVEN_MIN_THR`: emission happens at
the exact sample where the streak reaches the threshold. -/
theorem ovenAux_minutes_on (l : List ℚ) :
    ∀ (ts : Nat) (s : OvenState) (a : OvenAlert), a ∈ ovenAux ts s l →
      a.minutes_on = Config.OVEN_MIN_THR := by
  induction l with
  | nil => intro ts s a ha; simp [ovenAux] at ha
  | cons w rest ih =>
    intro ts s a ha
    rcases List.mem_append.mp ha with hstep | hrest
    · unfold ovenStep at hstep
      by_cases hw : Config.OVEN_W_THR < w
      · rw [if_pos hw] at hstep
        simp only at hstep
        by_cases hemit : s.streak + 1 = Config.OVEN_MIN_THR
        · rw [if_pos hemit] at hstep
          rcases List.mem_singleton.mp hstep with rfl
          exact hemit
        · rw [if_neg hemit] at hstep
          simp at hstep
      · rw [if_neg hw] at hstep
        by_cases h3 : Config.OVEN_OFF_MIN ≤
            (if w < Config.OVEN_OFF_HYST then s.offStreak + 1 else s.offStreak)
        · rw [if_pos h3] at hstep; simp at hstep
        · rw [if_neg h3] at hstep; simp at hstep
    · exact ih (ts + 1) _ a hrest

/-- C4 counterexample: a power series alternating 400 W / 150 W every
minute sustains neither the on-level (max on-run 1 < 30) nor the off-level
(max below-off run 1 < 3), yet the guard emits an alert: the on-streak
accumulates across the dips because `off_streak` is zeroed at every
above-on sample before reaching `OVEN_OFF_MIN`. -/
theorem oven_oscillation_emits_alert :
    (oven_left_on_guard oscillatingPower).length = 1 := by decide

/-- C4 amended: an alert needs at least `OVEN_MIN_THR` above-on samples, so
any series with fewer — oscillating or not — produces zero alerts; the
on-streak is reset exactly when the count of below-off samples accumulated
since the last above-on sample reaches `OVEN_OFF_MIN` (samples in the
hysteresis band `[OVEN_OFF_HYST, OVEN_W_THR]` neither advance nor reset
that count, so the below-off samples need not be consecutive); and every
above-on sample zeroes the accumulated off-count. -/
theorem oven_streak_reset_characterization :
    (∀ l : List ℚ, ovenOnCount l < Config.OVEN_MIN_THR →
      oven_left_on_guard l = []) ∧
    (∀ (s : OvenState) (ts : Nat) (w : ℚ), s.streak ≠ 0 →
      ((ovenStep s ts w).1.streak = 0 ↔
        (¬ Config.OVEN_W_THR < w ∧ Config.OVEN_OFF_MIN ≤
          s.offStreak + (if w < Config.OVEN_OFF_HYST then 1 else 0)))) ∧
    (∀ (s : OvenState) (ts : Nat) (w : ℚ), Config.OVEN_W_THR < w →
      (ovenStep s ts w).1.offStreak = 0) := by
  refine ⟨?_, ?_, ?_⟩
  · intro l h
    exact ovenAux_eq_nil_of_count_lt l 0 ⟨0, 0, none⟩ (by simpa using h)
  · intro s ts w hs
    unfold ovenStep
    by_cases hw : Config.OVEN_W_THR < w
    · rw [if_pos hw]
      simp only []
      constructor
      · intro h; exact absurd h (by simp)
      · rintro ⟨hnw, _⟩; exact absurd hw hnw
    · rw [if_neg hw]
      by_cases h3 : Config.OVEN_OFF_MIN ≤
          (if w < Config.OVEN_OFF_HYST then s.offStreak + 1 else s.offStreak)
      · rw [if_pos h3]
        refine ⟨fun _ => ⟨hw, ?_⟩, fun _ => rfl⟩
        by_cases hh : w < Config.OVEN_OFF_HYST
        · rw [if_pos hh] at h3 ⊢; omega
        · rw [if_neg hh] at h3 ⊢; omega
      · rw [if_neg h3]
        refine ⟨fun h => absurd h hs, ?_⟩
        rintro ⟨_, hcnt⟩
        exfalso
        by_cases hh : w < Config.OVEN_OFF_HYST
        · rw [if_pos hh] at h3; rw [if_pos hh] at hcnt; omega
        · rw [if_neg hh] at h3; rw [if_neg hh] at hcnt; omega
  · intro s ts w hw
    unfold ovenStep
    rw [if_pos hw]

/-- Witness for C4 amended: one above-on sample emits nothing; a below-off
sample after two accumulated off-samples resets a live streak; an above-on
sample zeroes the off-count. -/
theorem oven_streak_reset_characterization_witness :
    oven_left_on_guard [(400 : ℚ)] = [] ∧
    (ovenStep ⟨5, 2, none⟩ 0 150).1.streak = 0 ∧
    (ovenStep ⟨0, 2, none⟩ 0 400).1.offStreak = 0 :=
  ⟨oven_streak_reset_characterization.1 [(400 : ℚ)] (by decide),
    (oven_streak_reset_characterization.2.1 ⟨5, 2, none⟩ 0 150
      (by decide)).mpr (by decide),
    oven_streak_reset_characterization.2.2 ⟨0, 2, none⟩ 0 400 (by decide)⟩

/-- Over an all-above-on list the loop emits at most one alert, from any
starting state: once the streak passes the threshold it can never equal it
again without a reset, and no reset can occur. -/
theorem ovenAux_length_le_one (l : List ℚ) :
    ∀ (ts : Nat) (s : OvenState), (∀ w ∈ l, Config.OVEN_W_THR < w) →
      (ovenAux ts s l).length ≤ 1 := by
  induction l with
  | nil => intro ts s _; simp [ovenAux]
  | cons w rest ih =>
    intro ts s hall
    have hw : Config.OVEN_W_THR < w := hall w (List.mem_cons_self w rest)
    have hrest : ∀ v ∈ rest, Config.OVEN_W_THR < v :=
      fun v hv => hall v (List.mem_cons_of_mem w hv)
    show ((ovenStep s ts w).2 ++ ovenAux (ts + 1) (ovenStep s ts w).1 rest).length ≤ 1
    simp only [ovenStep, if_pos hw]
    by_cases hemit : s.streak + 1 = Config.OVEN_MIN_THR
    · rw [if_pos hemit,
        ovenAux_eq_nil_of_ge rest (ts + 1) _ hrest (by simp; omega)]
      simp
    · rw [if_neg hemit, List.nil_append]
      exact ih (ts + 1) _ hrest

/-- C10: every appliance-left-on alert has `minutes_on` exactly equal to
`OVEN_MIN_THR`; a continuous all-above-on episode yields at most one alert;
and on 35 minutes of constant 400 W the single alert's `ts_end` is minute
29 (the sample where the streak reaches 30), not minute 34 (the end of the
on-episode). -/
theorem oven_alert_emission_shape :
    (∀ (l : List ℚ) (a : OvenAlert), a ∈ oven_left_on_guard l →
      a.minutes_on = Config.OVEN_MIN_THR) ∧
    (∀ l : List ℚ, (∀ w ∈ l, Config.OVEN_W_THR < w) →
      (oven_left_on_guard l).length ≤ 1) ∧
    (oven_left_on_guard (List.replicate 35 (400 : ℚ))).map
        (fun a => (a.ts_start, a.ts_end, a.minutes_on)) =
      [(some 0, 29, 30)] := by
  refine ⟨?_, ?_, ?_⟩
  · intro l a ha
    exact ovenAux_minutes_on l 0 ⟨0, 0, none⟩ a ha
  · intro l hall
    exact ovenAux_length_le_one l 0 ⟨0, 0, none⟩ hall
  · rfl

/-- Evaluation of the guard on exactly 30 minutes of constant 400 W. -/
theorem oven_guard_replicate30 :
    oven_left_on_guard (List.replicate 30 (400 : ℚ)) =
      [⟨some 0, 29, ⌊(400 : ℚ)⌋, 30⟩] := rfl

/-- Witness for C10: the concrete alert on 30 minutes of 400 W has
`minutes_on = 30`, and a concrete two-sample on-episode yields at most one
alert. -/
theorem oven_alert_emission_shape_witness :
    (⟨some 0, 29, ⌊(400 : ℚ)⌋, 30⟩ : OvenAlert).minutes_on =
        Config.OVEN_MIN_THR ∧
    (oven_left_on_guard [(400 : ℚ), 400]).length ≤ 1 :=
  ⟨oven_alert_emission_shape.1 (List.replicate 30 (400 : ℚ)) _
      (by rw [oven_guard_replicate30]; exact List.mem_cons_self _ _),
    oven_alert_emission_shape.2.1 [(400 : ℚ), 400] (by decide)⟩

/-! ### Theorems for C5 (incident grouping) -/

/-- The produced incidents concatenate back to the input rows in order. -/
theorem groupGo_flatten :
    ∀ (rest cur : List ARow), (groupGo cur rest).flatten = cur ++ rest := by
  intro rest
  induction rest with
  | nil =>
    intro cur
    cases cur with
    | nil => simp [groupGo]
    | cons c ct => simp [groupGo]
  | cons r rest ih =>
    intro cur
    cases hlast : cur.getLast? with
    | none =>
      have hcur : cur = [] := List.getLast?_eq_none_iff.mp hlast
      subst hcur
      simp only [groupGo, List.getLast?_nil]
      rw [ih [r]]
      simp
    | some lastR =>
      by_cases hgap : r.ts - lastR.ts ≤ Config.MIN_ALERT_GAP_MIN
      · simp only [groupGo, hlast, if_pos hgap]
        rw [ih (cur ++ [r])]
        simp
      · simp only [groupGo, hlast, if_neg hgap]
        rw [List.flatten_cons, ih [r]]
        simp

/-- A nonempty accumulator heads the first produced incident. -/
theorem groupGo_head_extends :
    ∀ (rest cur : List ARow), cur ≠ [] →
      ∃ t gs, groupGo cur rest = (cur ++ t) :: gs := by
  intro rest
  induction rest with
  | nil =>
    intro cur hc
    cases cur with
    | nil => exact absurd rfl hc
    | cons c ct => exact ⟨[], [], by simp [groupGo]⟩
  | cons r rest ih =>
    intro cur hc
    cases hlast : cur.getLast? with
    | none => exact absurd (List.getLast?_eq_none_iff.mp hlast) hc
    | some lastR =>
      by_cases hgap : r.ts - lastR.ts ≤ Config.MIN_ALERT_GAP_MIN
      · obtain ⟨t, gs, h⟩ := ih (cur ++ [r]) (by simp)
        refine ⟨[r] ++ t, gs, ?_⟩
        simp only [groupGo, hlast, if_pos hgap]
        rw [h]
        simp
      · exact ⟨[], groupGo [r] rest,
          by simp only [groupGo, hlast, if_neg hgap]; simp⟩

/-- Inside every produced incident, consecutive rows are within the merge
gap (provided the accumulator already satisfies this). -/
theorem groupGo_chain_within :
    ∀ (rest cur : List ARow),
      List.Chain' (fun a b => b.ts - a.ts ≤ Config.MIN_ALERT_GAP_MIN) cur →
      ∀ g ∈ groupGo cur rest,
        List.Chain' (fun a b => b.ts - a.ts ≤ Config.MIN_ALERT_GAP_MIN) g := by
  intro rest
  induction rest with
  | nil =>
    intro cur hcur g hg
    cases cur with
    | nil => simp [groupGo] at hg
    | cons c ct =>
      simp only [groupGo, List.isEmpty_cons, List.mem_singleton,
        Bool.false_eq_true, if_false] at hg
      exact hg ▸ hcur
  | cons r rest ih =>
    intro cur hcur g hg
    cases hlast : cur.getLast? with
    | none =>
      simp only [groupGo, hlast] at hg
      exact ih [r] (List.chain'_singleton r) g hg
    | some lastR =>
      simp only [groupGo, hlast] at hg
      by_cases hgap : r.ts - lastR.ts ≤ Config.MIN_ALERT_GAP_MIN
      · rw [if_pos hgap] at hg
        refine ih (cur ++ [r]) ?_ g hg
        refine List.chain'_append.mpr ⟨hcur, List.chain'_singleton r, ?_⟩
        intro x hx y hy
        rw [hlast] at hx
        simp at hx hy
        rw [← hx, ← hy]
        exact hgap
      · rw [if_neg hgap] at hg
        rcases List.mem_cons.mp hg with h | h
        · exact h ▸ hcur
        · exact ih [r] (List.chain'_singleton r) g h

/-- Between adjacent produced incidents, the gap from the last row of the
earlier to the first row of the later exceeds the merge gap. -/
theorem groupGo_chain_between :
    ∀ (rest cur : List ARow),
      List.Chain' (fun g₁ g₂ => ∀ a b, g₁.getLast? = some a →
        g₂.head? = some b → Config.MIN_ALERT_GAP_MIN < b.ts - a.ts)
        (groupGo cur rest) := by
  intro rest
  induction rest with
  | nil =>
    intro cur
    cases cur with
    | nil => simp [groupGo]
    | cons c ct => simp [groupGo]
  | cons r rest ih =>
    intro cur
    cases hlast : cur.getLast? with
    | none => simp only [groupGo, hlast]; exact ih [r]
    | some lastR =>
      by_cases hgap : r.ts - lastR.ts ≤ Config.MIN_ALERT_GAP_MIN
      · simp only [groupGo, hlast, if_pos hgap]; exact ih (cur ++ [r])
      · simp only [groupGo, hlast, if_neg hgap]
        rw [List.chain'_cons']
        refine ⟨?_, ih [r]⟩
        intro g₂ hg₂ a b ha hb
        obtain ⟨t, gs, heq⟩ := groupGo_head_extends rest [r] (by simp)
        rw [heq] at hg₂
        simp at hg₂
        rw [← hg₂] at hb
        rw [hlast] at ha
        simp at ha hb
        rw [← ha, ← hb]
        exact not_le.mp hgap

/-- C5: `group_anomaly_incidents` partitions the time-ordered candidates so
that consecutive rows inside an incident are separated by at most
`MIN_ALERT_GAP_MIN` minutes, while adjacent incidents are separated by more:
hence a gap of exactly 30 minutes keeps two consecutive candidates in the
same incident and a gap of 31 minutes starts a new one. -/
theorem incident_grouping_characterization (l : List ARow) :
    (group_anomaly_incidents l).flatten = l ∧
    (∀ g ∈ group_anomaly_incidents l,
      List.Chain' (fun a b => b.ts - a.ts ≤ Config.MIN_ALERT_GAP_MIN) g) ∧
    List.Chain' (fun g₁ g₂ => ∀ a b, g₁.getLast? = some a →
      g₂.head? = some b → Config.MIN_ALERT_GAP_MIN < b.ts - a.ts)
      (group_anomaly_incidents l) :=
  ⟨(groupGo_flatten l []).trans (List.nil_append l),
    groupGo_chain_within l [] List.chain'_nil,
    groupGo_chain_between l []⟩

/-- Concrete run of the grouping: candidates at minutes 0, 30, 61; the
exactly-30 gap merges, the 31 gap splits. -/
theorem group_example_eval :
    group_anomaly_incidents [⟨0, 1⟩, ⟨30, 2⟩, ⟨61, 3⟩] =
      [[⟨0, 1⟩, ⟨30, 2⟩], [⟨61, 3⟩]] := by
  norm_num [group_anomaly_incidents, groupGo, Config.MIN_ALERT_GAP_MIN]

/-- Witness for C5: the merged pair at minutes 0 and 30 (gap exactly 30)
satisfies the within-incident chain condition. -/
theorem incident_grouping_characterization_witness :
    List.Chain' (fun a b => b.ts - a.ts ≤ Config.MIN_ALERT_GAP_MIN)
      [(⟨0, 1⟩ : ARow), ⟨30, 2⟩] :=
  (incident_grouping_characterization [⟨0, 1⟩, ⟨30, 2⟩, ⟨61, 3⟩]).2.1
    [⟨0, 1⟩, ⟨30, 2⟩]
    (by rw [group_example_eval]; exact List.mem_cons_self _ _)

/-! ### Theorems for C3 (adaptive thresholds) -/

/-- C3 counterexample: hour 1 holds a single window (score 100) — too few
samples to be meaningful on any reading — yet its threshold is its own
per-hour percentile 100, not the global 97.5th percentile 92.5 of all four
scores: the `thr_by_hour.get(h, global_thr)` fallback can never fire for an
hour that occurs in the run, because the dictionary is built by grouping
those very rows. -/
theorem threshold_no_sparse_fallback :
    thresholdForHour [(1, 100), (2, 0), (2, 0), (2, 0)] 1 = 100 ∧
    globalThreshold [(1, 100), (2, 0), (2, 0), (2, 0)] = 185 / 2 ∧
    (100 : ℚ) ≠ 185 / 2 := by
  refine ⟨?_, ?_, by norm_num⟩
  · norm_num [thresholdForHour, scoresOfHour, globalThreshold, quantileLinear,
      sortQ, insertSorted, Config.ANOM_PCTL_PER_HOUR]
  · norm_num [globalThreshold, quantileLinear, sortQ, insertSorted,
      Config.ANOM_PCTL_PER_HOUR]
    simp only [show Int.toNat 2 = 2 from rfl]
    norm_num

/-- C3 amended: every emitted window's threshold is the configured 97.5th
percentile of the scores of the windows sharing its hour-of-day — even for
an hour with a single sample; the global-percentile fallback applies only
to hours with no windows at all, which never describes an emitted window. -/
theorem threshold_per_hour_and_fallback :
    (∀ (rows : List (Nat × ℚ)) (h : Nat) (σ : ℚ), (h, σ) ∈ rows →
      thresholdForHour rows h =
        quantileLinear (Config.ANOM_PCTL_PER_HOUR / 100) (scoresOfHour rows h)) ∧
    (∀ (rows : List (Nat × ℚ)) (h : Nat), scoresOfHour rows h = [] →
      thresholdForHour rows h = globalThreshold rows) := by
  constructor
  · intro rows h σ hmem
    have hne : scoresOfHour rows h ≠ [] := by
      intro hemp
      unfold scoresOfHour at hemp
      rw [List.map_eq_nil_iff, List.filter_eq_nil_iff] at hemp
      exact hemp (h, σ) hmem (by simp)
    unfold thresholdForHour
    rw [if_neg hne]
  · intro rows h hemp
    unfold thresholdForHour
    rw [if_pos hemp]

/-- Witness for C3 amended: a run with one window at hour 3 uses that
hour's own percentile, and the fallback branch is exercised for absent
hour 4. -/
theorem threshold_per_hour_and_fallback_witness :
    thresholdForHour [(3, 7)] 3 =
      quantileLinear (Config.ANOM_PCTL_PER_HOUR / 100) (scoresOfHour [(3, 7)] 3) ∧
    thresholdForHour [(3, 7)] 4 = globalThreshold [(3, 7)] :=
  ⟨threshold_per_hour_and_fallback.1 [(3, 7)] 3 7 (List.mem_singleton_self _),
    threshold_per_hour_and_fallback.2 [(3, 7)] 4 rfl⟩

/-! ### Theorems for C6 (windowing) -/

/-- Every index emitted by `pyRange a b h` lies in `[a, b)`. -/
theorem pyRange_bounds (a b h : Nat) (hh : 0 < h) :
    ∀ e ∈ pyRange a b h, a ≤ e ∧ e < b := by
  intro e he
  unfold pyRange at he
  rw [List.mem_range'] at he
  obtain ⟨i, hi, rfl⟩ := he
  refine ⟨Nat.le_add_right a (h * i), ?_⟩
  have h1 : h * ((b - a + h - 1) / h) ≤ b - a + h - 1 := by
    rw [Nat.mul_comm]
    exact Nat.div_mul_le_self (b - a + h - 1) h
  have h2 : h * i + h ≤ h * ((b - a + h - 1) / h) := by
    calc h * i + h = h * (i + 1) := by ring
      _ ≤ h * ((b - a + h - 1) / h) := Nat.mul_le_mul_left h hi
  omega

/-- Every slice at an emitted end-index already has full length `W`. -/
theorem windowSlices_slice_full {α : Type} (l : List α) (W H : Nat)
    (hH : 0 < H) :
    ∀ e ∈ pyRange (W - 1) l.length H,
      ((l.drop (e + 1 - W)).take W).length = W := by
  intro e he
  obtain ⟨hle, hlt⟩ := pyRange_bounds (W - 1) l.length H hH e he
  rw [List.length_take, List.length_drop, Nat.min_eq_left (by omega)]

/-- The full-length filter keeps every slice. -/
theorem windowSlices_filter_all {α : Type} (l : List α) (W H : Nat)
    (hH : 0 < H) :
    ∀ w ∈ (pyRange (W - 1) l.length H).map
      (fun e => (l.drop (e + 1 - W)).take W), (w.length == W) = true := by
  intro w hw
  rw [List.mem_map] at hw
  obtain ⟨e, he, rfl⟩ := hw
  simpa using windowSlices_slice_full l W H hH e he

/-- Emitted-window count: `(L - W) / H + 1` when `W ≤ L`, else zero. -/
theorem windowSlices_length {α : Type} (l : List α) (W H : Nat)
    (hW : 0 < W) (hH : 0 < H) :
    (windowSlices l W H).length =
      if W ≤ l.length then (l.length - W) / H + 1 else 0 := by
  unfold windowSlices
  rw [List.filter_eq_self.mpr (windowSlices_filter_all l W H hH),
    List.length_map]
  unfold pyRange
  rw [List.length_range']
  by_cases hWL : W ≤ l.length
  · rw [if_pos hWL,
      (by omega : l.length - (W - 1) + H - 1 = l.length - W + H),
      Nat.add_div_right _ hH]
  · rw [if_neg hWL, (by omega : l.length - (W - 1) + H - 1 = H - 1)]
    exact Nat.div_eq_of_lt (by omega)

/-- C6: with positive window length `W` and hop `H`, the pipeline emits
exactly `(L - W) / H + 1` windows when `W ≤ L` and zero otherwise, and
every emitted window has exactly `W` elements and is a contiguous slice of
the input (no partial tail window is emitted). -/
theorem window_count_and_completeness {α : Type} (l : List α) (W H : Nat)
    (hW : 0 < W) (hH : 0 < H) :
    ((windowSlices l W H).length =
      if W ≤ l.length then (l.length - W) / H + 1 else 0) ∧
    ∀ w ∈ windowSlices l W H, w.length = W ∧ ∃ st, w = (l.drop st).take W := by
  constructor
  · exact windowSlices_length l W H hW hH
  · intro w hw
    unfold windowSlices at hw
    rw [List.filter_eq_self.mpr (windowSlices_filter_all l W H hH)] at hw
    rw [List.mem_map] at hw
    obtain ⟨e, he, rfl⟩ := hw
    exact ⟨windowSlices_slice_full l W H hH e he, e + 1 - W, rfl⟩

/-- Witness for C6: a 24-sample series with the configured `W = 15`,
`H = 5` yields exactly `(24 - 15) / 5 + 1 = 2` windows, and the first
emitted window is full-length. -/
theorem window_count_and_completeness_witness :
    (windowSlices (List.range 24) Config.WINDOW_MIN Config.HOP_MIN).length = 2 ∧
    ((List.range 24).take 15).length = Config.WINDOW_MIN :=
  ⟨by
    rw [(window_count_and_completeness (List.range 24) Config.WINDOW_MIN
      Config.HOP_MIN (by decide) (by decide)).1]
    decide,
   ((window_count_and_completeness (List.range 24) Config.WINDOW_MIN
      Config.HOP_MIN (by decide) (by decide)).2 ((List.range 24).take 15)
      (by decide)).1⟩

/-! ### Theorems for C7 (sleep sessions) -/

/-- Invariant of the session-building loop: every closed session starts
strictly before it ends and starts at a row of the input (or at the
incoming open start), and an open start at the end is a row of the input
(or the incoming one). -/
theorem sessionsAux_spec (l : List (Nat × Nat)) :
    ∀ (st : Option Nat),
      List.Pairwise (fun p q => p.1 < q.1) l →
      (∀ s, st = some s → ∀ p ∈ l, s < p.1) →
      (∀ se ∈ (sessionsAux st l).1,
        se.1 < se.2 ∧ (st = some se.1 ∨ ∃ m, (se.1, m) ∈ l)) ∧
      (∀ s, (sessionsAux st l).2 = some s →
        st = some s ∨ ∃ m, (s, m) ∈ l) := by
  induction l with
  | nil =>
    intro st _ _
    constructor
    · intro se hse; simp [sessionsAux] at hse
    · intro s hs; left; simpa [sessionsAux] using hs
  | cons row rest ih =>
    obtain ⟨t, m⟩ := row
    intro st hp hst
    obtain ⟨hall, hrest⟩ := List.pairwise_cons.mp hp
    by_cases hact : sleepActive t m = true
    · cases st with
      | none =>
        have h := ih (some t) hrest (by
          intro s hs p hpmem
          obtain rfl : t = s := Option.some.inj hs
          exact hall p hpmem)
        simp only [sessionsAux, if_pos hact]
        constructor
        · intro se hse
          obtain ⟨hlt, hcase⟩ := h.1 se hse
          refine ⟨hlt, Or.inr ?_⟩
          rcases hcase with heq | ⟨m', hm'⟩
          · obtain rfl : t = se.1 := Option.some.inj heq
            exact ⟨m, List.mem_cons_self _ _⟩
          · exact ⟨m', List.mem_cons_of_mem _ hm'⟩
        · intro s hs
          rcases h.2 s hs with heq | ⟨m', hm'⟩
          · obtain rfl : t = s := Option.some.inj heq
            exact Or.inr ⟨m, List.mem_cons_self _ _⟩
          · exact Or.inr ⟨m', List.mem_cons_of_mem _ hm'⟩
      | some s0 =>
        have h := ih (some s0) hrest (by
          intro s hs p hpmem
          have heq : s0 = s := Option.some.inj hs
          exact heq ▸ hst s0 rfl p (List.mem_cons_of_mem _ hpmem))
        simp only [sessionsAux, if_pos hact]
        constructor
        · intro se hse
          obtain ⟨hlt, hcase⟩ := h.1 se hse
          refine ⟨hlt, ?_⟩
          rcases hcase with heq | ⟨m', hm'⟩
          · exact Or.inl heq
          · exact Or.inr ⟨m', List.mem_cons_of_mem _ hm'⟩
        · intro s hs
          rcases h.2 s hs with heq | ⟨m', hm'⟩
          · exact Or.inl heq
          · exact Or.inr ⟨m', List.mem_cons_of_mem _ hm'⟩
    · cases st with
      | none =>
        have h := ih none hrest (by intro s hs; exact absurd hs (by simp))
        simp only [sessionsAux, if_neg hact]
        constructor
        · intro se hse
          obtain ⟨hlt, hcase⟩ := h.1 se hse
          refine ⟨hlt, ?_⟩
          rcases hcase with heq | ⟨m', hm'⟩
          · exact absurd heq (by simp)
          · exact Or.inr ⟨m', List.mem_cons_of_mem _ hm'⟩
        · intro s hs
          rcases h.2 s hs with heq | ⟨m', hm'⟩
          · exact absurd heq (by simp)
          · exact Or.inr ⟨m', List.mem_cons_of_mem _ hm'⟩
      | some s0 =>
        have h := ih none hrest (by intro s hs; exact absurd hs (by simp))
        simp only [sessionsAux, if_neg hact]
        constructor
        · intro se hse
          rcases List.mem_cons.mp hse with rfl | hse'
          · exact ⟨hst s0 rfl (t, m) (List.mem_cons_self _ _), Or.inl rfl⟩
          · obtain ⟨hlt, hcase⟩ := h.1 se hse'
            refine ⟨hlt, ?_⟩
            rcases hcase with heq | ⟨m', hm'⟩
            · exact absurd heq (by simp)
            · exact Or.inr ⟨m', List.mem_cons_of_mem _ hm'⟩
        · intro s hs
          rcases h.2 s hs with heq | ⟨m', hm'⟩
          · exact absurd heq (by simp)
          · exact Or.inr ⟨m', List.mem_cons_of_mem _ hm'⟩

/-- In a strictly time-sorted row list, every row's timestamp is at most
the last row's. -/
theorem pairwise_le_getLast :
    ∀ (l : List (Nat × Nat)), List.Pairwise (fun p q => p.1 < q.1) l →
      ∀ x ∈ l, ∀ p, l.getLast? = some p → x.1 ≤ p.1 := by
  intro l
  induction l with
  | nil => intro _ x hx; simp at hx
  | cons a rest ih =>
    intro hp x hx p hlast
    obtain ⟨hall, hrest⟩ := List.pairwise_cons.mp hp
    cases rest with
    | nil =>
      simp at hlast hx
      rw [hx, hlast]
    | cons b rest' =>
      rw [List.getLast?_cons_cons] at hlast
      rcases List.mem_cons.mp hx with rfl | hx'
      · have hpmem : p ∈ b :: rest' :=
          List.mem_of_mem_getLast? (by rw [hlast]; rfl)
        exact Nat.le_of_lt (hall p hpmem)
      · exact ih hrest x hx' p hlast

/-- Every session found in a strictly time-sorted input starts strictly
before it ends and starts at an input row. -/
theorem sessionsOf_spec (l : List (Nat × Nat))
    (hp : List.Pairwise (fun p q => p.1 < q.1) l) :
    ∀ se ∈ sessionsOf l, se.1 < se.2 ∧ ∃ m, (se.1, m) ∈ l := by
  intro se hse
  have hspec := sessionsAux_spec l none hp (by intro s hs; exact absurd hs (by simp))
  unfold sessionsOf at hse
  split at hse
  case _ ss s p haux hlast =>
    rcases List.mem_append.mp hse with hss | hone
    · obtain ⟨hlt, hcase⟩ := hspec.1 se (by rw [haux]; exact hss)
      rcases hcase with heq | hm
      · exact absurd heq (by simp)
      · exact ⟨hlt, hm⟩
    · obtain rfl := List.mem_singleton.mp hone
      have hopen := hspec.2 s (by rw [haux])
      rcases hopen with heq | ⟨m', hm'⟩
      · exact absurd heq (by simp)
      · refine ⟨?_, ⟨m', hm'⟩⟩
        have := pairwise_le_getLast l hp (s, m') hm' p hlast
        omega
  case _ ss s haux hlast =>
    exfalso
    rw [List.getLast?_eq_none_iff.mp hlast] at haux
    simp [sessionsAux] at haux
  case _ ss haux =>
    obtain ⟨hlt, hcase⟩ := hspec.1 se (by rw [haux]; exact hse)
    rcases hcase with heq | hm
    · exact absurd heq (by simp)
    · exact ⟨hlt, hm⟩

/-- The segment of a session found in a sorted input is never empty: the
session's starting row lies inside it. -/
theorem segmentOf_ne_nil (l : List (Nat × Nat))
    (hp : List.Pairwise (fun p q => p.1 < q.1) l) :
    ∀ se ∈ sessionsOf l, segmentOf l se.1 se.2 ≠ [] := by
  intro se hse hemp
  obtain ⟨hlt, m, hm⟩ := sessionsOf_spec l hp se hse
  have hmem : (se.1, m) ∈ segmentOf l se.1 se.2 :=
    List.mem_filter.mpr ⟨hm, by simp [hlt]⟩
  rw [hemp] at hmem
  exact absurd hmem (List.not_mem_nil _)

/-- C7: over a strictly time-sorted input, a session shorter than the
minimum duration emits nothing; a retained session emits exactly one
`sleep_session` info alert plus exactly one `possible_immobility` guard
alert if and only if the maximal gap between consecutive turnovers — with
session start and end as boundary markers — reaches the immobility
threshold; and the function's output is exactly the concatenation of the
per-session alerts. -/
theorem sleep_session_alert_emission (l : List (Nat × Nat))
    (hsorted : List.Chain' (fun p q => p.1 < q.1) l) :
    (∀ se ∈ sessionsOf l, se.2 - se.1 < Config.SLEEP_MIN_SESSION_MIN →
      sessionAlerts l se = []) ∧
    (∀ se ∈ sessionsOf l, Config.SLEEP_MIN_SESSION_MIN ≤ se.2 - se.1 →
      ((sessionAlerts l se).countP (fun a => a.label == "sleep_session") = 1 ∧
        (sessionAlerts l se).countP
            (fun a => a.label == "possible_immobility") =
          (if (Config.SLEEP_IMMOBILITY_GAP_MIN : ℤ) ≤
              maxGapOf (se.1 :: (turnoverTimes l se.1 se.2 ++ [se.2]))
            then 1 else 0))) ∧
    sleep_sessions_from_bed l = (sessionsOf l).flatMap (sessionAlerts l) := by
  have hp : List.Pairwise (fun p q : Nat × Nat => p.1 < q.1) l := by
    have : IsTrans (Nat × Nat) (fun p q => p.1 < q.1) :=
      ⟨fun _ _ _ h1 h2 => Nat.lt_trans h1 h2⟩
    rw [← List.chain'_iff_pairwise]
    exact hsorted
  refine ⟨?_, ?_, ?_⟩
  · intro se hse hshort
    simp only [sessionAlerts]
    rw [if_pos hshort]
  · intro se hse hdur
    have hseg := segmentOf_ne_nil l hp se hse
    simp only [sessionAlerts]
    rw [if_neg (Nat.not_lt.mpr hdur), if_neg hseg,
      if_pos (by decide : 0 < Config.SLEEP_IMMOBILITY_GAP_MIN)]
    by_cases hgap : (Config.SLEEP_IMMOBILITY_GAP_MIN : ℤ) ≤
        maxGapOf (se.1 :: (turnoverTimes l se.1 se.2 ++ [se.2]))
    · rw [if_pos hgap, if_pos hgap]
      constructor <;> simp [List.countP_cons]
    · rw [if_neg hgap, if_neg hgap]
      constructor <;> simp [List.countP_cons]
  · show sleepAlertsAux l (sessionsOf l) = _
    generalize sessionsOf l = ss
    induction ss with
    | nil => rfl
    | cons se rest ih => simp only [sleepAlertsAux, List.flatMap_cons, ih]

/-- The executable sortedness check implies the chain form used by the
session lemmas. -/
theorem strictlySortedTs_chain :
    ∀ l, strictlySortedTs l = true →
      List.Chain' (fun p q : Nat × Nat => p.1 < q.1) l := by
  intro l
  induction l with
  | nil => intro _; exact List.chain'_nil
  | cons p rest ih =>
    cases rest with
    | nil => intro _; simp
    | cons q rest2 =>
      intro h
      simp only [strictlySortedTs, Bool.and_eq_true, decide_eq_true_eq] at h
      exact List.chain'_cons.mpr ⟨h.1, ih h.2⟩

/-- Witness for C7: on the concrete night trace, the 10-minute session
(0,10) emits nothing, and the retained 65-minute session (11,76) emits one
`sleep_session` alert and no immobility alert (its maximal gap 65 < 240). -/
theorem sleep_session_alert_emission_witness :
    sessionAlerts sleepExample (0, 10) = [] ∧
    (sessionAlerts sleepExample (11, 76)).countP
        (fun a => a.label == "sleep_session") = 1 ∧
    (sessionAlerts sleepExample (11, 76)).countP
        (fun a => a.label == "possible_immobility") = 0 := by
  have h := sleep_session_alert_emission sleepExample
    (strictlySortedTs_chain sleepExample (by decide))
  refine ⟨h.1 (0, 10) (by decide) (by decide),
    (h.2.1 (11, 76) (by decide) (by decide)).1, ?_⟩
  rw [(h.2.1 (11, 76) (by decide) (by decide)).2]
  decide

/-! ### Theorems for C8 (validation and fallbacks) -/

/-- Validation succeeds exactly when none of the three error conditions
holds. -/
theorem validate_ok_iff (df : PDF) :
    validate_input_dataframe df = Except.ok () ↔
      ¬(df.isDatetimeIndex = false ∨ missingColumns df ≠ [] ∨
        df.index.length < Config.WINDOW_MIN) := by
  unfold validate_input_dataframe
  split_ifs with h1 h2 h3
  · simp [h1]
  · simp [h1, h2]
  · simp [h1, h2, h3]
  · simp [h1, h2, h3]

/-- C8: the pipeline raises a validation error exactly when the input is
not time-indexed, misses a required column, or has fewer rows than one
window (validation runs before anything else); when the emitted window
list is empty the post-validation body returns the empty alert list
without raising — a branch that can never be reached once validation has
passed, since at least one window then exists; and when fewer than 10
windows end before noon the training subset falls back to the first
`min(len(windows), 50)` windows by time. -/
theorem pipeline_validation_and_fallbacks :
    (∀ df : PDF, (∃ e, run_pipeline_control df = PipelineOutcome.invalid e) ↔
      (df.isDatetimeIndex = false ∨ missingColumns df ≠ [] ∨
        df.index.length < Config.WINDOW_MIN)) ∧
    (∀ idx : List Nat, (windowEndTimes idx).length = 0 →
      pipelineAfterValidation idx = PipelineOutcome.emptyNoWindows) ∧
    (∀ df : PDF, validate_input_dataframe df = Except.ok () →
      run_pipeline_control df ≠ PipelineOutcome.emptyNoWindows) ∧
    (∀ ws : List Nat,
      ((List.range ws.length).filter
        (fun i => decide ((ws.getD i 0) / 60 % 24 < 12))).length < 10 →
      trainIdx ws = List.range (min ws.length 50)) := by
  refine ⟨?_, ?_, ?_, ?_⟩
  · intro df
    constructor
    · rintro ⟨e, he⟩
      by_contra hnd
      have hok := (validate_ok_iff df).mpr hnd
      have hrun : run_pipeline_control df = pipelineAfterValidation df.index := by
        unfold run_pipeline_control
        rw [hok]
      rw [hrun] at he
      revert he
      simp only [pipelineAfterValidation]
      split_ifs <;> simp
    · intro hd
      have hnok : validate_input_dataframe df ≠ Except.ok () :=
        fun hok => (validate_ok_iff df).mp hok hd
      cases hv : validate_input_dataframe df with
      | error e => exact ⟨e, by unfold run_pipeline_control; rw [hv]⟩
      | ok u => cases u; exact absurd hv hnok
  · intro idx h
    unfold pipelineAfterValidation
    rw [if_pos h]
  · intro df hok
    have hlen : Config.WINDOW_MIN ≤ df.index.length := by
      rcases not_or.mp ((validate_ok_iff df).mp hok) with ⟨_, h23⟩
      rcases not_or.mp h23 with ⟨_, h3⟩
      exact Nat.not_lt.mp h3
    have hws : (windowEndTimes df.index).length =
        (df.index.length - Config.WINDOW_MIN) / Config.HOP_MIN + 1 := by
      unfold windowEndTimes
      rw [List.length_map,
        windowSlices_length df.index _ _ (by decide) (by decide), if_pos hlen]
    have hrun : run_pipeline_control df = pipelineAfterValidation df.index := by
      unfold run_pipeline_control
      rw [hok]
    rw [hrun]
    simp only [pipelineAfterValidation]
    rw [if_neg (by rw [hws]; exact Nat.succ_ne_zero _)]
    exact fun h => PipelineOutcome.noConfusion h
  · intro ws h
    unfold trainIdx
    rw [if_pos h]

/-- Witness for C8: a non-time-indexed frame is rejected; an empty index
reaches the empty-return branch of the post-validation body; a valid
15-row frame does not; one noon-free window triggers the first-N training
fallback. -/
theorem pipeline_validation_and_fallbacks_witness :
    (∃ e, run_pipeline_control ⟨false, [], []⟩ = PipelineOutcome.invalid e) ∧
    pipelineAfterValidation [] = PipelineOutcome.emptyNoWindows ∧
    run_pipeline_control ⟨true, Config.REQUIRED_COLUMNS, List.range 15⟩ ≠
      PipelineOutcome.emptyNoWindows ∧
    trainIdx [0] = List.range (min 1 50) :=
  ⟨(pipeline_validation_and_fallbacks.1 ⟨false, [], []⟩).mpr (Or.inl rfl),
    pipeline_validation_and_fallbacks.2.1 [] (by decide),
    pipeline_validation_and_fallbacks.2.2.1
      ⟨true, Config.REQUIRED_COLUMNS, List.range 15⟩ rfl,
    pipeline_validation_and_fallbacks.2.2.2 [0] (by decide)⟩

/-! ### Theorems for C9 (the caller's DataFrame is left unchanged) -/

/-- Writing the `df_local` cell leaves the `df_input` cell unchanged. -/
theorem heapGet_zero_heapSet_one (h : Heap) (d : DFrame) :
    heapGet (heapSet h 1 d) 0 = heapGet h 0 := by
  cases h with
  | nil => rfl
  | cons a t =>
    cases t with
    | nil => rfl
    | cons b t2 => rfl

/-- A fold whose step preserves the `df_input` cell preserves it. -/
theorem foldl_preserves_input (step : Heap → String → Heap)
    (hstep : ∀ h r, heapGet (step h r) 0 = heapGet h 0) :
    ∀ (rooms : List String) (h : Heap),
      heapGet (rooms.foldl step h) 0 = heapGet h 0 := by
  intro rooms
  induction rooms with
  | nil => intro h; rfl
  | cons r rest ih =>
    intro h
    rw [List.foldl_cons, ih (step h r), hstep]

/-- The raw-presence step writes only cell 1. -/
theorem presenceRawStep_preserves (h : Heap) (r : String) :
    heapGet (presenceRawStep h r) 0 = heapGet h 0 := by
  unfold presenceRawStep
  split_ifs
  · rfl
  · exact heapGet_zero_heapSet_one _ _

/-- The debounced-presence step writes only cell 1. -/
theorem presenceStep_preserves (h : Heap) (r : String) :
    heapGet (presenceStep h r) 0 = heapGet h 0 :=
  heapGet_zero_heapSet_one _ _

/-- Column assignment makes the column present. -/
theorem dfHasCol_dfSetCol_self (df : DFrame) (name : String) (v : ColValue) :
    dfHasCol (dfSetCol df name v) name = true := by
  unfold dfSetCol
  by_cases h : dfHasCol df name = true
  · rw [if_pos h]
    unfold dfHasCol at h ⊢
    rw [List.any_eq_true] at h ⊢
    obtain ⟨p, hp, hpn⟩ := h
    refine ⟨(name, v), ?_, by simp⟩
    rw [List.mem_map]
    exact ⟨p, hp, by rw [if_pos hpn]⟩
  · rw [if_neg h]
    unfold dfHasCol
    rw [List.any_eq_true]
    exact ⟨(name, v), List.mem_append_right _ (List.mem_singleton_self _),
      by simp⟩

/-- Writing cell 1 of a two-cell heap is read back unchanged. -/
theorem heapGet_one_heapSet_one (h : Heap) (d : DFrame) (hl : h.length = 2) :
    heapGet (heapSet h 1 d) 1 = d := by
  cases h with
  | nil => simp at hl
  | cons a t =>
    cases t with
    | nil => simp at hl
    | cons b t2 =>
      cases t2 with
      | nil => rfl
      | cons c t3 => simp at hl

/-- A fold whose step preserves the heap size preserves it. -/
theorem foldl_preserves_length (step : Heap → String → Heap)
    (hstep : ∀ h r, (step h r).length = h.length) :
    ∀ (rooms : List String) (h : Heap),
      (rooms.foldl step h).length = h.length := by
  intro rooms
  induction rooms with
  | nil => intro h; rfl
  | cons r rest ih =>
    intro h
    rw [List.foldl_cons, ih (step h r), hstep]

/-- The raw-presence step does not change the heap size. -/
theorem presenceRawStep_length (h : Heap) (r : String) :
    (presenceRawStep h r).length = h.length := by
  unfold presenceRawStep
  split_ifs
  · rfl
  · exact List.length_set h 1 _

/-- The debounced-presence step does not change the heap size. -/
theorem presenceStep_length (h : Heap) (r : String) :
    (presenceStep h r).length = h.length :=
  List.length_set h 1 _

/-- C9: the pipeline's column-building steps leave the caller's
`df_input` object exactly as it was — every derived column (raw presence,
debounced presence, `current_room`) is written to the copied `df_local`
object, which does gain the `current_room` column. -/
theorem pipeline_preserves_caller_frame (dfInput : DFrame) :
    heapGet (runPresenceSteps dfInput) 0 = dfInput ∧
    dfHasCol (heapGet (runPresenceSteps dfInput) 1) "current_room" = true := by
  constructor
  · show heapGet (heapSet _ 1 _) 0 = dfInput
    rw [heapGet_zero_heapSet_one,
      foldl_preserves_input presenceStep presenceStep_preserves,
      foldl_preserves_input presenceRawStep presenceRawStep_preserves]
    rfl
  · show dfHasCol (heapGet (heapSet _ 1 (dfSetCol _ "current_room" _)) 1)
      "current_room" = true
    rw [heapGet_one_heapSet_one _ _ (by
      rw [foldl_preserves_length presenceStep presenceStep_length,
        foldl_preserves_length presenceRawStep presenceRawStep_length]
      rfl)]
    exact dfHasCol_dfSetCol_self _ _ _
